import Mathlib

/-!
Verification of the dynamic-object extension mechanism of minijinja
(`src/minijinja/src/value/object.rs`): the `Object` / `SeqObject` /
`StructObject` capability interfaces, the bidirectional sequence iterator,
the `Arc` forwarding implementations and the `Simple*Object` adapters.

Traits are embedded as structures of functions (trait-object style); a
Rust `impl Trait for T` becomes a Lean function producing such a record.
`usize` indices and counts are embedded as `Nat`; iterators yielding
finitely many items are embedded as the `List` of their yields.
-/

/-- Modelled from the spec: Rust `&str` `Debug` formatting quotes the
string content.  (Escape sequences are not needed for the plain ASCII
field names that occur in this development.) -/
def strDebug (s : String) : String :=
  "\"" ++ s ++ "\""

/-- Decimal digits of the fractional part `r / 10 ^ scale`, with trailing
zeros stripped but at least one digit kept. -/
def fracDigitsStr (r : Nat) (scale : Nat) : String :=
  let digits := toString r
  let padded := String.mk (List.replicate (scale - digits.length) '0') ++ digits
  let trimmed := String.mk (padded.data.reverse.dropWhile (fun c => c = '0')).reverse
  if trimmed.isEmpty then "0" else trimmed

/-- Modelled from the spec: Rust `Debug` rendering of an `f32`/`f64` float
whose value is the exact decimal `num / 10 ^ scale` — the shortest decimal
form with at least one fractional digit (`1.0`, `2.5`, `3.0`, ...). -/
def f64Debug (num : Int) (scale : Nat) : String :=
  let sign := if num < 0 then "-" else ""
  let a := num.natAbs
  let p := 10 ^ scale
  sign ++ toString (a / p) ++ "." ++
    (if scale = 0 then "0" else fracDigitsStr (a % p) scale)

/-- Modelled from the spec: the engine's external `Value` type.  The spec
treats it as an external collaborator exposing a process-wide Undefined
sentinel; the claims additionally use float elements (exactly
representable decimals, embedded as `num / 10 ^ scale`), integers and
strings. -/
inductive Value where
  | undefined : Value
  | f64 (num : Int) (scale : Nat) : Value
  | int (n : Int) : Value
  | str (s : String) : Value
deriving DecidableEq

/-- `Value::UNDEFINED`, the Undefined sentinel. -/
def Value.UNDEFINED : Value := Value.undefined

/-- Modelled from the spec: `Debug` rendering of a `Value` (floats render
as their shortest decimal form, strings quoted). -/
def Value.debug : Value → String
  | .undefined => "undefined"
  | .f64 num scale => f64Debug num scale
  | .int n => toString n
  | .str s => strDebug s

/-- Modelled from the spec: the external error-kind classification; this
core's defaults produce only `UnknownMethod` and `InvalidOperation`. -/
inductive ErrorKind where
  | UnknownMethod
  | InvalidOperation
deriving DecidableEq

/-- Modelled from the spec: the external `Error` type — an error-kind
classification plus a human-readable message. -/
structure Error where
  kind : ErrorKind
  detail : String
deriving DecidableEq

/-- `Error::new(kind, detail)`. -/
def Error.new (kind : ErrorKind) (detail : String) : Error :=
  ⟨kind, detail⟩

/-- Modelled from the spec: the external interpreter `State`, threaded
through call dispatch unmodified and otherwise uninterpreted. -/
inductive State where
  | mk : State

/-- The `SeqObject` capability (trait-object view): indexed read access
plus count.  `get_item` returns `none` for an absent element. -/
structure SeqObject where
  get_item : Nat → Option Value
  item_count : Nat

/-- The `StructObject` capability (trait-object view).  `fields` embeds
the `fields()` iterator as the list of names it yields; its default is
the empty iterator, and `field_count` defaults to `self.fields().count()`. -/
structure StructObject where
  get_field : String → Option Value
  fields : List String := []
  field_count : Nat := fields.length

/-- `ObjectKind<'a>`: Plain, or a sequence / struct capability view. -/
inductive ObjectKind where
  | Plain : ObjectKind
  | Seq (s : SeqObject) : ObjectKind
  | Struct (s : StructObject) : ObjectKind

/-- Default body of `Object::call_method`: an `UnknownMethod` error whose
message embeds the method name. -/
def Object.defaultCallMethod (state : State) (name : String)
    (args : List Value) : Except Error Value :=
  Except.error (Error.new ErrorKind.UnknownMethod
    ("object has no method named " ++ name))

/-- Default body of `Object::call`: an `InvalidOperation` error. -/
def Object.defaultCall (state : State) (args : List Value) :
    Except Error Value :=
  Except.error (Error.new ErrorKind.InvalidOperation
    "tried to call non callable object")

/-- The `Object` base capability (trait-object view), with the source's
default bodies as field defaults. -/
structure Object where
  kind : ObjectKind := ObjectKind.Plain
  call_method : State → String → List Value → Except Error Value :=
    Object.defaultCallMethod
  call : State → List Value → Except Error Value := Object.defaultCall

/-- Embeds Rust std's `Range<usize>` (the `start..end` of the iterator);
the `end` field is spelled `«end»` since `end` is a Lean keyword. -/
structure URange where
  start : Nat
  «end» : Nat
deriving DecidableEq

/-- `Range::<usize>::next`: yield `start` and advance it while
`start < end`. -/
def URange.next (r : URange) : Option Nat × URange :=
  if r.start < r.«end» then (some r.start, { r with start := r.start + 1 })
  else (none, r)

/-- `Range::<usize>::next_back`: decrement `end` and yield it while
`start < end`. -/
def URange.next_back (r : URange) : Option Nat × URange :=
  if r.start < r.«end» then
    (some (r.«end» - 1), { r with «end» := r.«end» - 1 })
  else (none, r)

/-- `Range::<usize>::size_hint`: the exact remaining length as both lower
and upper bound. -/
def URange.size_hint (r : URange) : Nat × Option Nat :=
  (r.«end» - r.start, some (r.«end» - r.start))

/-- `SeqObjectIter<'a>`: a borrowed sequence plus the remaining index
range. -/
structure SeqObjectIter where
  seq : SeqObject
  range : URange

/-- `<dyn SeqObject>::iter`: a fresh iterator over `0..item_count()`. -/
def SeqObject.iter (seq : SeqObject) : SeqObjectIter :=
  { seq := seq, range := { start := 0, «end» := seq.item_count } }

/-- `Iterator::next` for `SeqObjectIter`: absent elements are replaced by
the Undefined sentinel. -/
def SeqObjectIter.next (it : SeqObjectIter) : Option Value × SeqObjectIter :=
  match URange.next it.range with
  | (some idx, r) =>
      (some ((it.seq.get_item idx).getD Value.UNDEFINED), { it with range := r })
  | (none, r) => (none, { it with range := r })

/-- `DoubleEndedIterator::next_back` for `SeqObjectIter`. -/
def SeqObjectIter.next_back (it : SeqObjectIter) :
    Option Value × SeqObjectIter :=
  match URange.next_back it.range with
  | (some idx, r) =>
      (some ((it.seq.get_item idx).getD Value.UNDEFINED), { it with range := r })
  | (none, r) => (none, { it with range := r })

/-- `Iterator::size_hint` for `SeqObjectIter`: forwards to the range. -/
def SeqObjectIter.size_hint (it : SeqObjectIter) : Nat × Option Nat :=
  it.range.size_hint

/-- Number of indices the iterator has not consumed yet. -/
def SeqObjectIter.remaining (it : SeqObjectIter) : Nat :=
  it.range.«end» - it.range.start

/-- Forward traversal to exhaustion: call `next` until it yields `none`,
collecting the yields.  Structural fuel; `remaining` steps suffice. -/
def SeqObjectIter.toListFuel : Nat → SeqObjectIter → List Value
  | 0, _ => []
  | fuel + 1, it =>
      match it.next with
      | (some v, it') => v :: SeqObjectIter.toListFuel fuel it'
      | (none, _) => []

/-- The list of values a fresh forward traversal yields. -/
def SeqObjectIter.toList (it : SeqObjectIter) : List Value :=
  SeqObjectIter.toListFuel it.remaining it

/-- Backward traversal to exhaustion: call `next_back` until it yields
`none`, collecting the yields. -/
def SeqObjectIter.toListBackFuel : Nat → SeqObjectIter → List Value
  | 0, _ => []
  | fuel + 1, it =>
      match it.next_back with
      | (some v, it') => v :: SeqObjectIter.toListBackFuel fuel it'
      | (none, _) => []

/-- The list of values a fresh backward traversal yields. -/
def SeqObjectIter.toListBack (it : SeqObjectIter) : List Value :=
  SeqObjectIter.toListBackFuel it.remaining it

/-- A direction request against the double-ended iterator. -/
inductive Direction where
  | forward : Direction
  | backward : Direction

/-- One `next` / `next_back` call, selected by direction. -/
def SeqObjectIter.step (it : SeqObjectIter) :
    Direction → Option Value × SeqObjectIter
  | Direction.forward => it.next
  | Direction.backward => it.next_back

/-- Run an arbitrary interleaving of `next` / `next_back` calls,
collecting every yielded value in call order. -/
def SeqObjectIter.runSteps (it : SeqObjectIter) :
    List Direction → List Value × SeqObjectIter
  | [] => ([], it)
  | d :: ds =>
      match it.step d with
      | (some v, it') =>
          let r := it'.runSteps ds
          (v :: r.1, r.2)
      | (none, it') => it'.runSteps ds

/-- `impl SeqObject for &[T]` where `T: Into<Value> + Clone`: direct
index/length forwarding with element conversion (`conv` embeds
`Into::into` after `cloned()`). -/
def sliceSeqObject {α : Type} (conv : α → Value) (l : List α) : SeqObject where
  get_item idx := (l.get? idx).map conv
  item_count := l.length

/-- `impl SeqObject for Vec<Value>`: `Into::into` is the identity on
`Value`. -/
def vecSeqObject (l : List Value) : SeqObject where
  get_item idx := (l.get? idx).map id
  item_count := l.length

/-- A `StructObject` implementation that overrides only the required
`get_field`, taking the source defaults for `fields` and `field_count`. -/
def StructObject.withDefaults (gf : String → Option Value) : StructObject :=
  { get_field := gf }

/-- A `StructObject` implementation that overrides `get_field` and
`fields` but takes the source default for `field_count`. -/
def StructObject.withFields (gf : String → Option Value)
    (fs : List String) : StructObject :=
  { get_field := gf, fields := fs }

/-- `Iterator::count`: consume the (list-embedded) iterator, counting its
yields. -/
def iterCount (l : List String) : Nat :=
  l.foldl (fun n _ => n + 1) 0

/-- `Arc<T>`, embedded as a plain wrapper: the shared reference-counted
handle dereferences to its inner value. -/
structure Arc (T : Type) where
  inner : T

/-- `impl<T: Object> Object for Arc<T>`: `imp` is the `Object`
implementation of `T` (its trait dictionary); every operation forwards to
the inner value. -/
def Arc.objectImpl {T : Type} (imp : T → Object) (a : Arc T) : Object where
  kind := (imp a.inner).kind
  call_method state name args := (imp a.inner).call_method state name args
  call state args := (imp a.inner).call state args

/-- `impl<T: SeqObject> SeqObject for Arc<T>`. -/
def Arc.seqObjectImpl {T : Type} (imp : T → SeqObject) (a : Arc T) :
    SeqObject where
  get_item idx := (imp a.inner).get_item idx
  item_count := (imp a.inner).item_count

/-- `impl<T: StructObject> StructObject for Arc<T>`. -/
def Arc.structObjectImpl {T : Type} (imp : T → StructObject) (a : Arc T) :
    StructObject where
  get_field name := (imp a.inner).get_field name
  fields := (imp a.inner).fields
  field_count := (imp a.inner).field_count

/-- The `, `-prefixed continuation of a separator join: the std debug
builders write `, ` before every entry after the first. -/
def joinTail : List String → String
  | [] => ""
  | e :: rest => ", " ++ e ++ joinTail rest

/-- Joins rendered entries with the `, ` separator the std debug builders
write between consecutive entries. -/
def renderSep : List String → String
  | [] => ""
  | e :: rest => e ++ joinTail rest

/-- Modelled from Rust std: `Formatter::debug_list` in non-alternate mode
renders its entries comma-separated inside square brackets. -/
def debugList (entries : List String) : String :=
  "[" ++ renderSep entries ++ "]"

/-- Modelled from Rust std: `Formatter::debug_map` in non-alternate mode
renders `key: value` entries comma-separated inside curly braces. -/
def debugMap (entries : List (String × String)) : String :=
  "\x7b" ++ renderSep (entries.map (fun e => e.1 ++ ": " ++ e.2)) ++ "\x7d"

/-- `impl Display for SimpleSeqObject<T>`: the source loop writes `[`,
then each debug-formatted element with `, ` before every element whose
`enumerate` index is positive, then `]`. -/
def SimpleSeqObject.displayFmt (s : SeqObject) : String :=
  "[" ++
    ((s.iter.toList).enum.foldl
      (fun acc p =>
        acc ++ (if p.1 > 0 then ", " else "") ++ Value.debug p.2) "") ++
    "]"

/-- `impl Debug for SimpleSeqObject<T>`: `debug_list` over the sequence
iterator. -/
def SimpleSeqObject.debugFmt (s : SeqObject) : String :=
  debugList ((s.iter.toList).map Value.debug)

/-- `impl Object for SimpleSeqObject<T>`: `kind` is `Seq` of the wrapped
value; display / call behavior synthesized from the defaults. -/
def SimpleSeqObject.objectImpl (s : SeqObject) : Object :=
  { kind := ObjectKind.Seq s }

/-- `impl Display for SimpleStructObject<T>`: the source loop writes `[`,
then for each enumerated field name a `name: value` pair (both
debug-formatted, an absent field replaced by the Undefined sentinel) with
`, ` before every pair whose index is positive, then `]`. -/
def SimpleStructObject.displayFmt (s : StructObject) : String :=
  "[" ++
    (s.fields.enum.foldl
      (fun acc p =>
        acc ++ (if p.1 > 0 then ", " else "") ++
          (strDebug p.2 ++ ": " ++
            Value.debug ((s.get_field p.2).getD Value.UNDEFINED))) "") ++
    "]"

/-- `impl Debug for SimpleStructObject<T>`: `debug_map` with one entry per
enumerated field name, an absent field replaced by the Undefined
sentinel. -/
def SimpleStructObject.debugFmt (s : StructObject) : String :=
  debugMap (s.fields.map
    (fun f1 =>
      (strDebug f1, Value.debug ((s.get_field f1).getD Value.UNDEFINED))))

/-- `impl Object for SimpleStructObject<T>`. -/
def SimpleStructObject.objectImpl (s : StructObject) : Object :=
  { kind := ObjectKind.Struct s }

/-- The doc example `Point(1.0, 2.5, 3.0)` as a sequence. -/
def examplePoint : SeqObject :=
  vecSeqObject [Value.f64 1 0, Value.f64 25 1, Value.f64 3 0]

/-- The doc example `Point(1.0, 2.5, 3.0)` as a struct with fields
`x`, `y`, `z` in that enumeration order. -/
def examplePointStruct : StructObject :=
  StructObject.withFields
    (fun name =>
      if name = "x" then some (Value.f64 1 0)
      else if name = "y" then some (Value.f64 25 1)
      else if name = "z" then some (Value.f64 3 0)
      else none)
    ["x", "y", "z"]

/-- A sparse sequence: three items, the middle one absent. -/
def sparseSeq : SeqObject where
  get_item idx :=
    if idx = 1 then none
    else if idx < 3 then some (Value.int (Int.ofNat idx)) else none
  item_count := 3

/-- A `StructObject` that keeps the default `fields` / `field_count` but
whose required `get_field` answers every name. -/
def oddStruct : StructObject :=
  StructObject.withDefaults (fun _ => some (Value.int 1))

/-- A struct enumerating two fields of which the first has no value. -/
def gappyStruct : StructObject :=
  StructObject.withFields
    (fun name => if name = "b" then some (Value.int 2) else none)
    ["a", "b"]

theorem SeqObjectIter.next_of_lt (it : SeqObjectIter)
    (h : it.range.start < it.range.«end») :
    it.next =
      (some ((it.seq.get_item it.range.start).getD Value.UNDEFINED),
        { it with range :=
            { start := it.range.start + 1, «end» := it.range.«end» } }) := by
  simp [SeqObjectIter.next, URange.next, h]

theorem SeqObjectIter.next_of_ge (it : SeqObjectIter)
    (h : ¬ it.range.start < it.range.«end») :
    it.next = (none, it) := by
  simp [SeqObjectIter.next, URange.next, h]

theorem SeqObjectIter.next_back_of_lt (it : SeqObjectIter)
    (h : it.range.start < it.range.«end») :
    it.next_back =
      (some ((it.seq.get_item (it.range.«end» - 1)).getD Value.UNDEFINED),
        { it with range :=
            { start := it.range.start, «end» := it.range.«end» - 1 } }) := by
  simp [SeqObjectIter.next_back, URange.next_back, h]

theorem SeqObjectIter.next_back_of_ge (it : SeqObjectIter)
    (h : ¬ it.range.start < it.range.«end») :
    it.next_back = (none, it) := by
  simp [SeqObjectIter.next_back, URange.next_back, h]

theorem range'_concat_one (s n : Nat) :
    List.range' s (n + 1) = List.range' s n ++ [s + n] := by
  induction n generalizing s with
  | zero => simp [List.range'_succ]
  | succ n ih =>
      rw [List.range'_succ, ih (s + 1), List.range'_succ]
      simp [Nat.add_assoc, Nat.add_comm 1 n]

theorem SeqObjectIter.toListFuel_eq (fuel : Nat) :
    ∀ it : SeqObjectIter, it.remaining ≤ fuel →
      SeqObjectIter.toListFuel fuel it =
        (List.range' it.range.start it.remaining).map
          (fun i => (it.seq.get_item i).getD Value.UNDEFINED) := by
  induction fuel with
  | zero =>
      intro it h
      have h0 : it.remaining = 0 := Nat.le_zero.mp h
      simp [SeqObjectIter.toListFuel, h0]
  | succ fuel ih =>
      intro it h
      by_cases hlt : it.range.start < it.range.«end»
      · have hstep := SeqObjectIter.next_of_lt it hlt
        have hrem : it.remaining = (it.remaining - 1) + 1 := by
          simp only [SeqObjectIter.remaining] at *; omega
        rw [SeqObjectIter.toListFuel, hstep]
        have hih := ih { it with range :=
            { start := it.range.start + 1, «end» := it.range.«end» } }
          (by simp only [SeqObjectIter.remaining] at *; omega)
        simp only [SeqObjectIter.remaining] at hih ⊢
        have hsz : it.range.«end» - it.range.start =
            (it.range.«end» - (it.range.start + 1)) + 1 := by omega
        rw [hih, hsz, List.range'_succ]
        simp
      · have h0 : it.remaining = 0 := by
          simp only [SeqObjectIter.remaining]; omega
        rw [SeqObjectIter.toListFuel, SeqObjectIter.next_of_ge it hlt]
        simp [h0]

theorem SeqObjectIter.toList_eq (it : SeqObjectIter) :
    it.toList =
      (List.range' it.range.start it.remaining).map
        (fun i => (it.seq.get_item i).getD Value.UNDEFINED) :=
  SeqObjectIter.toListFuel_eq it.remaining it (Nat.le_refl _)

theorem SeqObject.iter_toList_eq (s : SeqObject) :
    (s.iter).toList =
      (List.range' 0 s.item_count).map
        (fun i => (s.get_item i).getD Value.UNDEFINED) := by
  rw [SeqObjectIter.toList_eq]
  simp [SeqObject.iter, SeqObjectIter.remaining]

theorem SeqObjectIter.toListBackFuel_eq (fuel : Nat) :
    ∀ it : SeqObjectIter, it.remaining ≤ fuel →
      SeqObjectIter.toListBackFuel fuel it =
        ((List.range' it.range.start it.remaining).map
          (fun i => (it.seq.get_item i).getD Value.UNDEFINED)).reverse := by
  induction fuel with
  | zero =>
      intro it h
      have h0 : it.remaining = 0 := Nat.le_zero.mp h
      simp [SeqObjectIter.toListBackFuel, h0]
  | succ fuel ih =>
      intro it h
      by_cases hlt : it.range.start < it.range.«end»
      · have hstep := SeqObjectIter.next_back_of_lt it hlt
        have hrem : it.remaining = (it.remaining - 1) + 1 := by
          simp only [SeqObjectIter.remaining] at *; omega
        rw [SeqObjectIter.toListBackFuel, hstep]
        have hih := ih { it with range :=
            { start := it.range.start, «end» := it.range.«end» - 1 } }
          (by simp only [SeqObjectIter.remaining] at *; omega)
        simp only [SeqObjectIter.remaining] at hih ⊢
        have hsz : it.range.«end» - it.range.start =
            (it.range.«end» - 1 - it.range.start) + 1 := by omega
        have hlast : it.range.start + (it.range.«end» - 1 - it.range.start) =
            it.range.«end» - 1 := by omega
        rw [hih, hsz, range'_concat_one, hlast]
        simp
      · have h0 : it.remaining = 0 := by
          simp only [SeqObjectIter.remaining]; omega
        rw [SeqObjectIter.toListBackFuel, SeqObjectIter.next_back_of_ge it hlt]
        simp [h0]

theorem SeqObjectIter.toListBack_eq (it : SeqObjectIter) :
    it.toListBack = it.toList.reverse := by
  rw [SeqObjectIter.toListBack, SeqObjectIter.toList,
    SeqObjectIter.toListBackFuel_eq it.remaining it (Nat.le_refl _),
    SeqObjectIter.toListFuel_eq it.remaining it (Nat.le_refl _)]

/-- C1: for every `SeqObject` with `item_count() = n`, a forward
traversal of `iter()` to exhaustion yields exactly `n` values; at every
index `i < n` the yielded value is `get_item(i)` with absence replaced by
the Undefined sentinel, so an absent element never terminates the
iteration early. -/
theorem seq_iter_yields_exactly_item_count (s : SeqObject) :
    (s.iter).toList.length = s.item_count ∧
    (∀ i, i < s.item_count →
      ((s.iter).toList)[i]? = some ((s.get_item i).getD Value.UNDEFINED)) ∧
    (∀ i, i < s.item_count → s.get_item i = none →
      ((s.iter).toList)[i]? = some Value.UNDEFINED) := by
  have hchar : ∀ i, i < s.item_count →
      ((s.iter).toList)[i]? = some ((s.get_item i).getD Value.UNDEFINED) := by
    intro i hi
    rw [SeqObject.iter_toList_eq]
    simp [List.getElem?_eq_getElem, List.length_range', hi, List.getElem_range']
  refine ⟨?_, hchar, ?_⟩
  · rw [SeqObject.iter_toList_eq]
    simp
  · intro i hi hnone
    rw [hchar i hi, hnone]
    rfl

/-- Witness for C1 at the sparse three-element sequence: three values are
yielded and position 1 (whose `get_item` is `none`) carries the Undefined
sentinel. -/
theorem seq_iter_yields_exactly_item_count_witness :
    (sparseSeq.iter).toList.length = 3 ∧
    ((sparseSeq.iter).toList)[1]? = some Value.UNDEFINED := by
  refine ⟨?_, ?_⟩
  · exact (seq_iter_yields_exactly_item_count sparseSeq).1
  · exact (seq_iter_yields_exactly_item_count sparseSeq).2.2 1 (by decide)
      (by decide)

/-- C2: over any `SeqObject`, traversing a fresh iterator entirely
backward yields exactly the reverse of the sequence a fresh forward
traversal yields (hence the same multiset of values). -/
theorem seq_iter_backward_reverses_forward (s : SeqObject) :
    (s.iter).toListBack = ((s.iter).toList).reverse :=
  SeqObjectIter.toListBack_eq s.iter

/-- C3: an `Object` implementation that keeps the default `call_method`
and `call` bodies fails every method call with an `UnknownMethod` error
whose message embeds the method name, fails every direct invocation with
an `InvalidOperation` error, and never returns `Ok` from either. -/
theorem default_object_call_errors (o : Object)
    (hcm : o.call_method = Object.defaultCallMethod)
    (hc : o.call = Object.defaultCall)
    (state : State) (name : String) (args : List Value) :
    (∃ pre post, o.call_method state name args =
      Except.error (Error.new ErrorKind.UnknownMethod
        (pre ++ name ++ post))) ∧
    o.call state args =
      Except.error (Error.new ErrorKind.InvalidOperation
        "tried to call non callable object") ∧
    (o.call_method state name args).isOk = false ∧
    (o.call state args).isOk = false := by
  rw [hcm, hc]
  refine ⟨⟨"object has no method named ", "", ?_⟩, rfl, rfl, rfl⟩
  simp [Object.defaultCallMethod]

/-- Witness for C3: the all-defaults object, a concrete state, method
name and empty argument list. -/
theorem default_object_call_errors_witness :
    ({} : Object).call_method State.mk "frobnicate" [] =
      Except.error (Error.new ErrorKind.UnknownMethod
        "object has no method named frobnicate") ∧
    ({} : Object).call State.mk [] =
      Except.error (Error.new ErrorKind.InvalidOperation
        "tried to call non callable object") ∧
    (({} : Object).call_method State.mk "frobnicate" []).isOk = false ∧
    (({} : Object).call State.mk []).isOk = false := by
  have h := default_object_call_errors {} rfl rfl State.mk "frobnicate" []
  exact ⟨by rfl, h.2.1, h.2.2.1, h.2.2.2⟩

/-- C4: wrapping an `Object`, `SeqObject` or `StructObject`
implementation in `Arc` is behavior-preserving — every operation of the
`Arc` forwarding impls returns exactly what the inner implementation
returns, for all inputs. -/
theorem arc_forwarding_preserves_behavior {T : Type}
    (oImp : T → Object) (sImp : T → SeqObject) (stImp : T → StructObject)
    (a : Arc T) (state : State) (name : String) (args : List Value)
    (idx : Nat) :
    (Arc.objectImpl oImp a).kind = (oImp a.inner).kind ∧
    (Arc.objectImpl oImp a).call_method state name args =
      (oImp a.inner).call_method state name args ∧
    (Arc.objectImpl oImp a).call state args =
      (oImp a.inner).call state args ∧
    (Arc.seqObjectImpl sImp a).get_item idx = (sImp a.inner).get_item idx ∧
    (Arc.seqObjectImpl sImp a).item_count = (sImp a.inner).item_count ∧
    (Arc.structObjectImpl stImp a).get_field name =
      (stImp a.inner).get_field name ∧
    (Arc.structObjectImpl stImp a).fields = (stImp a.inner).fields ∧
    (Arc.structObjectImpl stImp a).field_count =
      (stImp a.inner).field_count :=
  ⟨rfl, rfl, rfl, rfl, rfl, rfl, rfl, rfl⟩

/-- C5 counterexample: `oddStruct` overrides neither `fields()` nor
`field_count()` — both keep the source defaults, reporting no names and
count 0 — yet its required `get_field` answers every name, so the
claim's "`get_field` returns absence for any name" is false. -/
theorem struct_defaults_counterexample :
    oddStruct.fields = [] ∧ oddStruct.field_count = 0 ∧
    ¬ (∀ name, oddStruct.get_field name = none) := by
  refine ⟨rfl, rfl, fun h => ?_⟩
  have hx := h "x"
  simp [oddStruct, StructObject.withDefaults] at hx

/-- C5 (amended): a `StructObject` implementation that does not override
`fields()` or `field_count()` reports `field_count() = 0` and yields no
names from `fields()`; `get_field` is a required method the defaults do
not constrain. -/
theorem struct_defaults_amended (gf : String → Option Value) :
    (StructObject.withDefaults gf).fields = [] ∧
    (StructObject.withDefaults gf).field_count = 0 :=
  ⟨rfl, rfl⟩

theorem iterCount_eq_length (l : List String) : iterCount l = l.length := by
  have haux : ∀ (l : List String) (n : Nat),
      l.foldl (fun n _ => n + 1) n = n + l.length := by
    intro l
    induction l with
    | nil => intro n; simp
    | cons a t ih => intro n; simp [ih]; omega
  simpa using haux l 0

/-- C6: for a `StructObject` implementation overriding `fields()` but not
`field_count()`, the default `field_count()` equals the number of names
yielded by one full enumeration of `fields()`. -/
theorem default_field_count_counts_fields (gf : String → Option Value)
    (fs : List String) :
    (StructObject.withFields gf fs).field_count =
      iterCount ((StructObject.withFields gf fs).fields) := by
  show fs.length = iterCount fs
  rw [iterCount_eq_length]

/-- C7: the built-in `SeqObject` impls for borrowed slices (with element
conversion) and for `Vec<Value>` forward index and length directly:
`item_count` is the collection length, `get_item i` is the converted
element at `i` for `i < length` and `none` for `i ≥ length`. -/
theorem slice_vec_seq_object_forwarding {α : Type} (conv : α → Value)
    (l : List α) (m : List Value) (i : Nat) :
    (sliceSeqObject conv l).item_count = l.length ∧
    (∀ h : i < l.length,
      (sliceSeqObject conv l).get_item i = some (conv (l.get ⟨i, h⟩))) ∧
    (l.length ≤ i → (sliceSeqObject conv l).get_item i = none) ∧
    (vecSeqObject m).item_count = m.length ∧
    (∀ h : i < m.length,
      (vecSeqObject m).get_item i = some (m.get ⟨i, h⟩)) ∧
    (m.length ≤ i → (vecSeqObject m).get_item i = none) := by
  refine ⟨rfl, ?_, ?_, rfl, ?_, ?_⟩ <;> intro h <;>
    simp [sliceSeqObject, vecSeqObject, List.get?_eq_getElem?,
      List.getElem?_eq_getElem, List.getElem?_eq_none, h]

/-- Witness for C7: a two-element slice of integers and a one-element
vector, exercising both the in-range and the out-of-range branch. -/
theorem slice_vec_seq_object_forwarding_witness :
    (sliceSeqObject Value.int [2, 3]).item_count = 2 ∧
    (sliceSeqObject Value.int [2, 3]).get_item 0 = some (Value.int 2) ∧
    (vecSeqObject [Value.int 5]).get_item 1 = none := by
  have h0 := slice_vec_seq_object_forwarding Value.int [2, 3] [Value.int 5] 0
  have h1 := slice_vec_seq_object_forwarding Value.int [2, 3] [Value.int 5] 1
  exact ⟨h0.1, h0.2.1 (by decide), h1.2.2.2.2.2 (by decide)⟩

/-- C8: the simple adapters at `Point(1.0, 2.5, 3.0)` — the sequence form
debug-renders as `[1.0, 2.5, 3.0]` and the struct form (fields `x, y, z`
in enumeration order) debug-renders as the map form
`{"x": 1.0, "y": 2.5, "z": 3.0}`. -/
theorem simple_adapters_debug_rendering :
    SimpleSeqObject.debugFmt examplePoint = "[1.0, 2.5, 3.0]" ∧
    SimpleStructObject.debugFmt examplePointStruct =
      "\x7b\"x\": 1.0, \"y\": 2.5, \"z\": 3.0\x7d" := by
  constructor <;> rfl

theorem renderSep_cons (e : String) (rest : List String) :
    renderSep (e :: rest) = e ++ joinTail rest := rfl

theorem enumFrom_foldl_sep (g : α → String) (t : List α) :
    ∀ (k : Nat) (acc : String), 0 < k →
      (List.enumFrom k t).foldl
        (fun acc p => acc ++ (if p.1 > 0 then ", " else "") ++ g p.2) acc =
      acc ++ joinTail (t.map g) := by
  induction t with
  | nil => intro k acc _; simp [joinTail]
  | cons x xs ih =>
      intro k acc hk
      have hpos : k > 0 := hk
      simp only [List.enumFrom, List.foldl_cons, hpos, if_pos]
      rw [ih (k + 1) (acc ++ ", " ++ g x) (Nat.succ_pos k)]
      simp [joinTail, String.append_assoc]

theorem enum_foldl_sep (g : α → String) (l : List α) :
    l.enum.foldl
      (fun acc p => acc ++ (if p.1 > 0 then ", " else "") ++ g p.2) "" =
      renderSep (l.map g) := by
  cases l with
  | nil => simp [renderSep]
  | cons a t =>
      have h1 : (a :: t).enum = (0, a) :: List.enumFrom 1 t := by
        simp [List.enum_cons]
      rw [h1, List.foldl_cons]
      have h2 := enumFrom_foldl_sep g t 1 ("" ++ (if 0 > 0 then ", " else "") ++ g a)
        (by decide)
      rw [h2, List.map_cons, renderSep_cons]
      simp

/-- The rendered `name: value` entries of a struct, one per enumerated
field name in enumeration order; an absent field is paired with the
Undefined sentinel. -/
def structEntries (s : StructObject) : List String :=
  s.fields.map (fun f1 =>
    strDebug f1 ++ ": " ++
      Value.debug ((s.get_field f1).getD Value.UNDEFINED))

/-- C9: both the `Display` and the `Debug` rendering of
`SimpleStructObject` consist exactly of one `name: value` entry per name
yielded by `fields()`, in enumeration order (so each yielded name appears
exactly once), and a name whose `get_field` is `none` is rendered paired
with the Undefined sentinel instead of being skipped or failing. -/
theorem simple_struct_render_entries (s : StructObject) :
    SimpleStructObject.displayFmt s =
      "[" ++ renderSep (structEntries s) ++ "]" ∧
    SimpleStructObject.debugFmt s =
      "\x7b" ++ renderSep (structEntries s) ++ "\x7d" ∧
    (structEntries s).length = s.fields.length ∧
    (∀ i, ∀ h : i < s.fields.length,
      s.get_field (s.fields.get ⟨i, h⟩) = none →
      (structEntries s)[i]? =
        some (strDebug (s.fields.get ⟨i, h⟩) ++ ": " ++
          Value.debug Value.UNDEFINED)) := by
  refine ⟨?_, ?_, by simp [structEntries], ?_⟩
  · rw [SimpleStructObject.displayFmt]
    rw [enum_foldl_sep
      (fun f1 => strDebug f1 ++ ": " ++
        Value.debug ((s.get_field f1).getD Value.UNDEFINED)) s.fields]
    rfl
  · rw [SimpleStructObject.debugFmt, debugMap]
    simp only [List.map_map]
    rfl
  · intro i h hnone
    simp only [structEntries, List.getElem?_map, List.get_eq_getElem] at *
    rw [List.getElem?_eq_getElem h]
    simp [hnone]

/-- Witness for C9 at `gappyStruct`: its first enumerated field `a` has
no value and is rendered with the Undefined sentinel, not skipped. -/
theorem simple_struct_render_entries_witness :
    (structEntries gappyStruct).length = 2 ∧
    (structEntries gappyStruct)[0]? =
      some (strDebug "a" ++ ": " ++ Value.debug Value.UNDEFINED) := by
  have h := simple_struct_render_entries gappyStruct
  exact ⟨h.2.2.1, h.2.2.2 0 (by decide) (by rfl)⟩

theorem SeqObjectIter.runSteps_spec (ds : List Direction) :
    ∀ it : SeqObjectIter, it.range.start ≤ it.range.«end» →
      it.range.start ≤ (it.runSteps ds).2.range.start ∧
      (it.runSteps ds).2.range.start ≤ (it.runSteps ds).2.range.«end» ∧
      (it.runSteps ds).2.range.«end» ≤ it.range.«end» ∧
      (it.runSteps ds).2.seq = it.seq ∧
      (it.runSteps ds).1.Perm
        ((List.range' it.range.start
            ((it.runSteps ds).2.range.start - it.range.start) ++
          List.range' (it.runSteps ds).2.range.«end»
            (it.range.«end» - (it.runSteps ds).2.range.«end»)).map
          (fun i => (it.seq.get_item i).getD Value.UNDEFINED)) := by
  induction ds with
  | nil =>
      intro it hle
      simp [SeqObjectIter.runSteps, hle]
  | cons d ds ih =>
      intro it hle
      cases d with
      | forward =>
          by_cases hlt : it.range.start < it.range.«end»
          · have hnext := SeqObjectIter.next_of_lt it hlt
            have hrun : it.runSteps (Direction.forward :: ds) =
                ((it.seq.get_item it.range.start).getD Value.UNDEFINED ::
                  (SeqObjectIter.runSteps
                    { it with range :=
                        { start := it.range.start + 1,
                          «end» := it.range.«end» } } ds).1,
                  (SeqObjectIter.runSteps
                    { it with range :=
                        { start := it.range.start + 1,
                          «end» := it.range.«end» } } ds).2) := by
              simp [SeqObjectIter.runSteps, SeqObjectIter.step, hnext]
            have hih := ih
              { it with range :=
                  { start := it.range.start + 1, «end» := it.range.«end» } }
              (by simpa using hlt)
            obtain ⟨hih1, hih2, hih3, hih4, hih5⟩ := hih
            simp only at hih1 hih3 hih4 hih5
            rw [hrun]
            simp only
            refine ⟨by omega, hih2, by omega, hih4, ?_⟩
            have hs : (SeqObjectIter.runSteps
                { it with range :=
                    { start := it.range.start + 1,
                      «end» := it.range.«end» } } ds).2.range.start -
                  it.range.start =
                ((SeqObjectIter.runSteps
                  { it with range :=
                      { start := it.range.start + 1,
                        «end» := it.range.«end» } } ds).2.range.start -
                  (it.range.start + 1)) + 1 := by omega
            rw [hs, List.range'_succ]
            simp only [List.cons_append, List.map_cons]
            exact List.Perm.cons _ hih5
          · have hnext := SeqObjectIter.next_of_ge it hlt
            have hrun : it.runSteps (Direction.forward :: ds) =
                it.runSteps ds := by
              simp [SeqObjectIter.runSteps, SeqObjectIter.step, hnext]
            rw [hrun]
            exact ih it hle
      | backward =>
          by_cases hlt : it.range.start < it.range.«end»
          · have hnext := SeqObjectIter.next_back_of_lt it hlt
            have hrun : it.runSteps (Direction.backward :: ds) =
                ((it.seq.get_item (it.range.«end» - 1)).getD Value.UNDEFINED ::
                  (SeqObjectIter.runSteps
                    { it with range :=
                        { start := it.range.start,
                          «end» := it.range.«end» - 1 } } ds).1,
                  (SeqObjectIter.runSteps
                    { it with range :=
                        { start := it.range.start,
                          «end» := it.range.«end» - 1 } } ds).2) := by
              simp [SeqObjectIter.runSteps, SeqObjectIter.step, hnext]
            have hih := ih
              { it with range :=
                  { start := it.range.start, «end» := it.range.«end» - 1 } }
              (by simp; omega)
            obtain ⟨hih1, hih2, hih3, hih4, hih5⟩ := hih
            simp only at hih1 hih3 hih4 hih5
            rw [hrun]
            simp only
            refine ⟨hih1, hih2, by omega, hih4, ?_⟩
            have hE : it.range.«end» -
                (SeqObjectIter.runSteps
                  { it with range :=
                      { start := it.range.start,
                        «end» := it.range.«end» - 1 } } ds).2.range.«end» =
                ((it.range.«end» - 1) -
                  (SeqObjectIter.runSteps
                    { it with range :=
                        { start := it.range.start,
                          «end» := it.range.«end» - 1 } } ds).2.range.«end») +
                  1 := by omega
            rw [hE, range'_concat_one]
            have hlast : (SeqObjectIter.runSteps
                { it with range :=
                    { start := it.range.start,
                      «end» := it.range.«end» - 1 } } ds).2.range.«end» +
                ((it.range.«end» - 1) -
                  (SeqObjectIter.runSteps
                    { it with range :=
                        { start := it.range.start,
                          «end» := it.range.«end» - 1 } } ds).2.range.«end») =
                it.range.«end» - 1 := by omega
            rw [hlast, ← List.append_assoc, List.map_append]
            refine List.Perm.trans (List.Perm.cons _ hih5) ?_
            have hperm := (List.perm_append_singleton
              ((it.seq.get_item (it.range.«end» - 1)).getD Value.UNDEFINED)
              ((List.range' it.range.start
                  ((SeqObjectIter.runSteps
                    { it with range :=
                        { start := it.range.start,
                          «end» := it.range.«end» - 1 } } ds).2.range.start -
                    it.range.start) ++
                List.range' (SeqObjectIter.runSteps
                    { it with range :=
                        { start := it.range.start,
                          «end» := it.range.«end» - 1 } } ds).2.range.«end»
                  ((it.range.«end» - 1) -
                    (SeqObjectIter.runSteps
                      { it with range :=
                          { start := it.range.start,
                            «end» := it.range.«end» - 1 } } ds).2.range.«end»)).map
                (fun i => (it.seq.get_item i).getD Value.UNDEFINED))).symm
            simpa using hperm
          · have hnext := SeqObjectIter.next_back_of_ge it hlt
            have hrun : it.runSteps (Direction.backward :: ds) =
                it.runSteps ds := by
              simp [SeqObjectIter.runSteps, SeqObjectIter.step, hnext]
            rw [hrun]
            exact ih it hle

/-- The indices an interleaved traversal has consumed: the prefix
`[0, start)` taken by `next` and the suffix `[end, n)` taken by
`next_back`, for final range `r` over an original count `n`. -/
def consumedIndices (n : Nat) (r : URange) : List Nat :=
  List.range' 0 r.start ++ List.range' r.«end» (n - r.«end»)

/-- C10: the forward and backward cursors of one `SeqObjectIter` share a
single index range: under any interleaving of `next` and `next_back`
calls the consumed indices are pairwise distinct (each index of
`[0, item_count)` is consumed at most once), the yielded values are
exactly the values at those distinct indices — so the total yielded
across both directions plus the unconsumed count is exactly
`item_count()` — and `size_hint` always reports the exact unconsumed
count as both lower and upper bound. -/
theorem seq_iter_interleaving_consumes_each_index_once (s : SeqObject)
    (ds : List Direction) :
    ((s.iter).runSteps ds).2.range.start ≤
      ((s.iter).runSteps ds).2.range.«end» ∧
    ((s.iter).runSteps ds).2.range.«end» ≤ s.item_count ∧
    (consumedIndices s.item_count ((s.iter).runSteps ds).2.range).Nodup ∧
    ((s.iter).runSteps ds).1.Perm
      ((consumedIndices s.item_count ((s.iter).runSteps ds).2.range).map
        (fun i => (s.get_item i).getD Value.UNDEFINED)) ∧
    ((s.iter).runSteps ds).1.length +
      ((s.iter).runSteps ds).2.remaining = s.item_count ∧
    ((s.iter).runSteps ds).2.size_hint =
      (((s.iter).runSteps ds).2.remaining,
        some (((s.iter).runSteps ds).2.remaining)) := by
  have hstart : (s.iter).range.start = 0 := rfl
  have hend : (s.iter).range.«end» = s.item_count := rfl
  have hseq : (s.iter).seq = s := rfl
  have h := SeqObjectIter.runSteps_spec ds s.iter
    (by rw [hstart, hend]; exact Nat.zero_le _)
  rw [hstart, hend, hseq] at h
  obtain ⟨h1, h2, h3, h4, h5⟩ := h
  rw [Nat.sub_zero] at h5
  have hnodup : (consumedIndices s.item_count
      ((s.iter).runSteps ds).2.range).Nodup := by
    rw [consumedIndices]
    refine List.Nodup.append (List.nodup_range' _ _ 1 (by decide))
      (List.nodup_range' _ _ 1 (by decide)) ?_
    intro a ha hb
    rw [List.mem_range'_1] at ha hb
    omega
  refine ⟨h2, h3, hnodup, h5, ?_, ?_⟩
  · have hlen := h5.length_eq
    simp only [consumedIndices, List.length_map, List.length_append,
      List.length_range'] at hlen ⊢
    simp only [SeqObjectIter.remaining]
    omega
  · rfl
